import Mathlib

/-!
Verification of the annotation state machine of the pwa-movie-viewer
repository (normalized line geometry, hit-testing, drag sessions, bounded
undo/redo history), as a shallow embedding in Lean 4.

Conventions of the embedding:
* JS numbers are modelled as rationals (ℚ); line ids are strings;
  timestamps are integers.
* `Math.hypot dx dy < r` and `Math.sqrt d2 < r` with a positive constant
  `r` are translated to the equivalent squared comparisons
  `dx*dx + dy*dy < r*r` and `d2 < r*r`, so that every definition stays
  executable over ℚ.  `distanceToSegmentSq` is the square of the source's
  `distanceToSegment` (the final `Math.sqrt` is omitted; two nonnegative
  reals are equal or ordered exactly as their squares are).
* React `useState` fields become fields of an explicit `DrawState`
  record; each event handler becomes a function `DrawState → DrawState`.
  Environment-produced values (`crypto.randomUUID()`, `Date.now()`, the
  pointer event's client coordinates and the container's bounding
  rectangle) are passed as parameters.  Side effects that do not touch
  the drawing state (`onShowControls`, persistence writes) are dropped.
-/

namespace MovieViewer

/-- A normalized point `{x, y}` (src/types, used throughout). -/
structure Point where
  x : ℚ
  y : ℚ
deriving DecidableEq, Repr

/-- A committed line `{id, type: 'line', p1, p2, createdAt}`
(construction site: handlePointerDown, useToast.ts:167-173). -/
structure LineShape where
  id : String
  type : String
  p1 : Point
  p2 : Point
  createdAt : ℤ
deriving DecidableEq, Repr

/-- Drag target kind (useToast.ts:49). -/
inductive DragType where
  | p1
  | p2
  | move
deriving DecidableEq, Repr

/-- History action: tagged union with tags 'add' | 'delete' | 'update'
(pushes at useToast.ts:238, 253, 303). -/
inductive DrawingAction where
  | add (line : LineShape)
  | delete (line : LineShape)
  | update (before after : LineShape)
deriving DecidableEq, Repr

/-- The ephemeral drag session (useToast.ts:51-56). -/
structure EditSession where
  id : String
  before : LineShape
  lastPointer : Point
  type : DragType
deriving DecidableEq, Repr

/-- A pixel-space rectangle `{x, y, width, height}` (video bounds). -/
structure Rect where
  x : ℚ
  y : ℚ
  width : ℚ
  height : ℚ
deriving DecidableEq, Repr

/-- The container's bounding client rect; only `left`/`top` are read
(useToast.ts:83-84). -/
structure BoundingRect where
  left : ℚ
  top : ℚ
deriving DecidableEq, Repr

/-- src/App.tsx:451. -/
def HISTORY_LIMIT : ℕ := 50

/-- src/App.tsx:453. -/
def HANDLE_HIT_RADIUS : ℚ := 32

/-- src/App.tsx:454. -/
def LINE_HIT_THRESHOLD : ℚ := 18

/-- `clampPoint` (geometry.ts:21-23): clamp each axis to [0,1]. -/
def clampPoint (p : Point) : Point :=
  { x := max 0 (min 1 p.x), y := max 0 (min 1 p.y) }

/-- Square of `Math.hypot x y`. -/
def hypotSq (x y : ℚ) : ℚ := x * x + y * y

/-- The guarded squared segment length `dx * dx + dy * dy || 1` of
`distanceToSegment` (geometry.ts:10-12): the JS `|| 1` replaces a zero
(falsy) length-squared by 1. -/
def segLenSqGuard (a b : Point) (width height : ℚ) : ℚ :=
  let dx := b.x * width - a.x * width
  let dy := b.y * height - a.y * height
  let lenSq := dx * dx + dy * dy
  if lenSq = 0 then 1 else lenSq

/-- Square of `distanceToSegment` (geometry.ts:3-19): scale the three
points to pixel space, project `p` onto segment `[a,b]` with the
projection parameter clamped to [0,1], return the squared Euclidean
distance (the source returns `Math.sqrt` of this value). -/
def distanceToSegmentSq (p a b : Point) (width height : ℚ) : ℚ :=
  let px := p.x * width
  let py := p.y * height
  let ax := a.x * width
  let ay := a.y * height
  let bx := b.x * width
  let by' := b.y * height
  let dx := bx - ax
  let dy := by' - ay
  let t := max 0 (min 1 (((px - ax) * dx + (py - ay) * dy) / segLenSqGuard a b width height))
  let projX := ax + t * dx
  let projY := ay + t * dy
  let distX := px - projX
  let distY := py - projY
  distX * distX + distY * distY

/-- `toNormalizedPoint` (useToast.ts:80-96): translate the pointer's
client position into container-local pixels, reject it when there are no
video bounds or it falls outside them, otherwise normalize against the
bounds and clamp.  (The source also returns null when the container rect
is unavailable; the rect is a parameter here.) -/
def toNormalizedPoint (rect : BoundingRect) (videoBounds : Option Rect)
    (clientX clientY : ℚ) : Option Point :=
  match videoBounds with
  | none => none
  | some b =>
    let withinX := clientX - rect.left
    let withinY := clientY - rect.top
    if withinX < b.x ∨ withinX > b.x + b.width ∨
       withinY < b.y ∨ withinY > b.y + b.height then
      none
    else
      some (clampPoint { x := (withinX - b.x) / b.width, y := (withinY - b.y) / b.height })

/-- The drawing state: the `useState` fields plus the `editSessionRef`
of `useDrawingState` (useToast.ts:73-78). -/
structure DrawState where
  lines : List LineShape
  draftLine : Option LineShape
  selectedId : Option String
  history : List DrawingAction
  redoStack : List DrawingAction
  editSession : Option EditSession
deriving DecidableEq, Repr

/-- The initial state of the hook (useToast.ts:73-78). -/
def initialState : DrawState :=
  { lines := [], draftLine := none, selectedId := none,
    history := [], redoStack := [], editSession := none }

/-- JS `list.slice(-n)`: keep the last `n` elements. -/
def sliceLast (n : ℕ) (l : List α) : List α := l.drop (l.length - n)

/-- `pushHistory` (useToast.ts:98-101): append the action to history,
keep the most recent `HISTORY_LIMIT` entries, clear the redo stack. -/
def pushHistory (s : DrawState) (action : DrawingAction) : DrawState :=
  { s with history := sliceLast HISTORY_LIMIT (s.history ++ [action]),
           redoStack := [] }

/-- `findHit` (useToast.ts:103-135): scan the line list for the first
line with an endpoint within `HANDLE_HIT_RADIUS` in pixel space (target
`p1` when the point is within radius of that line's `p1`, else `p2`);
failing that, scan for the first line whose body is within
`LINE_HIT_THRESHOLD`; failing that, return `(none, none)`.
`Math.hypot dx dy < R` is rendered as `hypotSq dx dy < R * R`, and
`distanceToSegment … < T` as `distanceToSegmentSq … < T * T`. -/
def findHit (videoBounds : Option Rect) (lines : List LineShape) (point : Point) :
    Option LineShape × Option DragType :=
  match videoBounds with
  | none => (none, none)
  | some b =>
    match lines.find? (fun line =>
        let dx1 := decide (hypotSq (point.x * b.width - line.p1.x * b.width)
          (point.y * b.height - line.p1.y * b.height) < HANDLE_HIT_RADIUS * HANDLE_HIT_RADIUS)
        let dx2 := decide (hypotSq (point.x * b.width - line.p2.x * b.width)
          (point.y * b.height - line.p2.y * b.height) < HANDLE_HIT_RADIUS * HANDLE_HIT_RADIUS)
        dx1 || dx2) with
    | some hitHandle =>
      let handleType : DragType :=
        if hypotSq (point.x * b.width - hitHandle.p1.x * b.width)
            (point.y * b.height - hitHandle.p1.y * b.height) <
            HANDLE_HIT_RADIUS * HANDLE_HIT_RADIUS
        then DragType.p1 else DragType.p2
      (some hitHandle, some handleType)
    | none =>
      match lines.find? (fun line =>
          decide (distanceToSegmentSq point line.p1 line.p2 b.width b.height <
            LINE_HIT_THRESHOLD * LINE_HIT_THRESHOLD)) with
      | some hitLine => (some hitLine, some DragType.move)
      | none => (none, none)

/-- `handlePointerDown` (useToast.ts:137-199).  `newId` stands for
`crypto.randomUUID()` and `now` for `Date.now()`; `targetIsFormControl`
models `event.target.closest('button, input, select, textarea')`. -/
def handlePointerDown (appMode : String) (videoUrl : Option String) (button : ℕ)
    (targetIsFormControl : Bool) (rect : BoundingRect) (videoBounds : Option Rect)
    (clientX clientY : ℚ) (newId : String) (now : ℤ) (s : DrawState) : DrawState :=
  if appMode ≠ "draw" then s
  else if videoUrl = none ∨ button = 2 then s
  else if targetIsFormControl then s
  else
    let point := toNormalizedPoint rect videoBounds clientX clientY
    -- fall-through taken when no line was hit (or no point resolved):
    -- useToast.ts:164-198
    let rest := fun (pt : Option Point) =>
      let canStartDrawing := s.selectedId = none
      if canStartDrawing then
        match pt with
        | none => s
        | some p =>
          { s with draftLine := some { id := newId, type := "line", p1 := p, p2 := p,
                                       createdAt := now } }
      else
        match pt with
        | none => { s with selectedId := none, editSession := none }
        | some p =>
          match findHit videoBounds s.lines p with
          | (some line, some target) =>
            { s with selectedId := some line.id,
                     editSession := some { id := line.id, before := line,
                                           lastPointer := p, type := target } }
          | (some line, none) => { s with selectedId := some line.id }
          | (none, _) => { s with selectedId := none, editSession := none }
    match point with
    | some p =>
      match findHit videoBounds s.lines p with
      | (some line, target) =>
        { s with selectedId := some line.id,
                 editSession := target.map (fun t =>
                   { id := line.id, before := line, lastPointer := p, type := t }) }
      | (none, _) => rest (some p)
    | none => rest none

/-- `handlePointerMove` (useToast.ts:201-232).  The source mutates
`session.lastPointer = point` inside the `map` callback for each line
whose id matches the session; line ids are unique in every reachable
state, so at most one callback matches and the net effect is
`lastPointer := point` whenever the session is live; that net effect is
modelled directly. -/
def handlePointerMove (appMode : String) (rect : BoundingRect)
    (videoBounds : Option Rect) (clientX clientY : ℚ) (s : DrawState) : DrawState :=
  if appMode ≠ "draw" then s
  else
    let point := toNormalizedPoint rect videoBounds clientX clientY
    match s.draftLine with
    | some draft =>
      match point with
      | none => s
      | some p => { s with draftLine := some { draft with p2 := p } }
    | none =>
      match point, s.editSession with
      | some p, some session =>
        let newLines := s.lines.map (fun line =>
          if line.id ≠ session.id then line
          else
            match session.type with
            | DragType.move =>
              let delta : Point := { x := p.x - session.lastPointer.x,
                                     y := p.y - session.lastPointer.y }
              { line with
                  p1 := clampPoint { x := line.p1.x + delta.x, y := line.p1.y + delta.y },
                  p2 := clampPoint { x := line.p2.x + delta.x, y := line.p2.y + delta.y } }
            | DragType.p1 => { line with p1 := clampPoint p }
            | DragType.p2 => { line with p2 := clampPoint p })
        { s with lines := newLines,
                 editSession := some { session with lastPointer := p } }
      | _, _ => s

/-- `handlePointerUp` (useToast.ts:234-257): commit a live draft as an
`add`; otherwise, with a live session, push an `update` exactly when the
live line differs from the `before` snapshot in some coordinate; the
session ref is nulled on every path past the draft branch. -/
def handlePointerUp (appMode : String) (s : DrawState) : DrawState :=
  if appMode ≠ "draw" then s
  else
    match s.draftLine with
    | some draft =>
      let s1 := pushHistory { s with lines := s.lines ++ [draft] } (DrawingAction.add draft)
      { s1 with draftLine := none, selectedId := some draft.id }
    | none =>
      let s1 : DrawState :=
        match s.editSession with
        | some session =>
          match s.lines.find? (fun l => l.id == session.id) with
          | some updated =>
            if updated.p1.x ≠ session.before.p1.x ∨ updated.p1.y ≠ session.before.p1.y ∨
               updated.p2.x ≠ session.before.p2.x ∨ updated.p2.y ≠ session.before.p2.y
            then pushHistory s (DrawingAction.update session.before updated)
            else s
          | none => s
        | none => s
      { s1 with editSession := none }

/-- Inverse application of an action, as inlined in `handleUndo`'s
`setLines` callback (useToast.ts:264-272); spec §9 names this
`applyInverse`. -/
def applyInverse (current : List LineShape) (last : DrawingAction) : List LineShape :=
  match last with
  | DrawingAction.add line => current.filter (fun l => l.id != line.id)
  | DrawingAction.delete line => current ++ [line]
  | DrawingAction.update before after =>
    current.map (fun l => if l.id = after.id then before else l)

/-- Forward application of an action, as inlined in `handleRedo`'s
`setLines` callback (useToast.ts:283-291); spec §9 names this
`applyForward`. -/
def applyForward (current : List LineShape) (last : DrawingAction) : List LineShape :=
  match last with
  | DrawingAction.add line => current ++ [line]
  | DrawingAction.delete line => current.filter (fun l => l.id != line.id)
  | DrawingAction.update before after =>
    current.map (fun l => if l.id = before.id then after else l)

/-- `handleUndo` (useToast.ts:259-276): no-op on empty history;
otherwise apply the inverse of the top history action, push it onto the
redo stack (bounded), and pop the history. -/
def handleUndo (s : DrawState) : DrawState :=
  match s.history.getLast? with
  | none => s
  | some last =>
    { s with lines := applyInverse s.lines last,
             redoStack := sliceLast HISTORY_LIMIT (s.redoStack ++ [last]),
             history := s.history.dropLast }

/-- `handleRedo` (useToast.ts:278-295): no-op on empty redo stack;
otherwise apply the top redo action forward and push it onto history
(bounded).  The source's `setRedoStack` callback ends with
`return prev;` — the redo stack is left unchanged, not popped (the two
other revisions of this handler in the repo, src/App.tsx and the
pre-refactor app component, end with `return prev.slice(0, -1);`). -/
def handleRedo (s : DrawState) : DrawState :=
  match s.redoStack.getLast? with
  | none => s
  | some last =>
    { s with lines := applyForward s.lines last,
             history := sliceLast HISTORY_LIMIT (s.history ++ [last]),
             redoStack := s.redoStack }

/-- `deleteSelected` (useToast.ts:297-305). -/
def deleteSelected (s : DrawState) : DrawState :=
  match s.selectedId with
  | none => s
  | some sid =>
    match s.lines.find? (fun l => l.id == sid) with
    | none => s
    | some line =>
      let s1 := pushHistory { s with lines := s.lines.filter (fun l => l.id != sid) }
        (DrawingAction.delete line)
      { s1 with selectedId := none }

/-- `resetDrawing` (useToast.ts:307-314). -/
def resetDrawing (nextLines : List LineShape) (_s : DrawState) : DrawState :=
  { lines := nextLines, draftLine := none, selectedId := none,
    history := [], redoStack := [], editSession := none }

/-- `clearInteraction` (useToast.ts:316-320). -/
def clearInteraction (s : DrawState) : DrawState :=
  { s with draftLine := none, selectedId := none, editSession := none }

/-- The keydown listener (useToast.ts:322-335): only the key 'Delete'
with a live selection triggers `deleteSelected`, and it is suppressed
while an INPUT/TEXTAREA/SELECT element has focus.  `activeTag` models
`document.activeElement?.tagName`. -/
def handleKeyDown (key : String) (activeTag : Option String) (s : DrawState) : DrawState :=
  if key ≠ "Delete" ∨ s.selectedId = none then s
  else
    match activeTag with
    | some tag =>
      if tag = "INPUT" ∨ tag = "TEXTAREA" ∨ tag = "SELECT" then s else deleteSelected s
    | none => deleteSelected s

/-! ## Spec-side rendering of the hit tester (for the refinement claim C6) -/

/-- Modelled from the claim: the point is within the handle-hit radius of
endpoint `q`, measured in pixel space (distance squared against the
squared radius). -/
def nearHandle (b : Rect) (p q : Point) : Bool :=
  decide (((p.x - q.x) * b.width) * ((p.x - q.x) * b.width) +
          ((p.y - q.y) * b.height) * ((p.y - q.y) * b.height) <
          HANDLE_HIT_RADIUS * HANDLE_HIT_RADIUS)

/-- Modelled from the claim: scan the lines in list order for the first
one with an endpoint within the handle-hit radius; target `p1` if the
point is within radius of that line's `p1`, else `p2`. -/
def scanHandles (b : Rect) (p : Point) : List LineShape → Option (LineShape × DragType)
  | [] => none
  | line :: rest =>
    if nearHandle b p line.p1 then some (line, DragType.p1)
    else if nearHandle b p line.p2 then some (line, DragType.p2)
    else scanHandles b p rest

/-- Modelled from the claim: scan the lines in list order for the first
one whose body is within the line-hit threshold; a body hit yields
target `move`. -/
def scanBodies (b : Rect) (p : Point) : List LineShape → Option (LineShape × DragType)
  | [] => none
  | line :: rest =>
    if distanceToSegmentSq p line.p1 line.p2 b.width b.height <
        LINE_HIT_THRESHOLD * LINE_HIT_THRESHOLD
    then some (line, DragType.move)
    else scanBodies b p rest

/-- Modelled from the claim: handles first over the whole list, then
bodies over the whole list, else no hit. -/
def findHitSpec (b : Rect) (lines : List LineShape) (p : Point) :
    Option LineShape × Option DragType :=
  match scanHandles b p lines with
  | some (line, t) => (some line, some t)
  | none =>
    match scanBodies b p lines with
    | some (line, t) => (some line, some t)
    | none => (none, none)

/-- The handle-scan callback of `findHit` (useToast.ts:105-117), as a
named predicate. -/
def handlePred (b : Rect) (point : Point) (line : LineShape) : Bool :=
  decide (hypotSq (point.x * b.width - line.p1.x * b.width)
    (point.y * b.height - line.p1.y * b.height) < HANDLE_HIT_RADIUS * HANDLE_HIT_RADIUS) ||
  decide (hypotSq (point.x * b.width - line.p2.x * b.width)
    (point.y * b.height - line.p2.y * b.height) < HANDLE_HIT_RADIUS * HANDLE_HIT_RADIUS)

/-- The body-scan callback of `findHit` (useToast.ts:130-132), as a
named predicate. -/
def bodyPred (b : Rect) (point : Point) (line : LineShape) : Bool :=
  decide (distanceToSegmentSq point line.p1 line.p2 b.width b.height <
    LINE_HIT_THRESHOLD * LINE_HIT_THRESHOLD)

lemma findHit_eq (b : Rect) (lines : List LineShape) (p : Point) :
    findHit (some b) lines p =
      (match lines.find? (handlePred b p) with
       | some hitHandle =>
         (some hitHandle, some (if hypotSq (p.x * b.width - hitHandle.p1.x * b.width)
             (p.y * b.height - hitHandle.p1.y * b.height) <
             HANDLE_HIT_RADIUS * HANDLE_HIT_RADIUS
           then DragType.p1 else DragType.p2))
       | none =>
         match lines.find? (bodyPred b p) with
         | some hitLine => (some hitLine, some DragType.move)
         | none => (none, none)) := rfl

lemma nearHandle_eq_true_iff (b : Rect) (p q : Point) :
    nearHandle b p q = true ↔
      hypotSq (p.x * b.width - q.x * b.width) (p.y * b.height - q.y * b.height) <
        HANDLE_HIT_RADIUS * HANDLE_HIT_RADIUS := by
  have e1 : ((p.x - q.x) * b.width) * ((p.x - q.x) * b.width) +
      ((p.y - q.y) * b.height) * ((p.y - q.y) * b.height) =
      hypotSq (p.x * b.width - q.x * b.width) (p.y * b.height - q.y * b.height) := by
    unfold hypotSq; ring
  simp only [nearHandle, decide_eq_true_eq]
  rw [e1]

lemma scanHandles_spec (b : Rect) (p : Point) (lines : List LineShape) :
    scanHandles b p lines =
      (lines.find? (handlePred b p)).map (fun hitHandle =>
        (hitHandle, if hypotSq (p.x * b.width - hitHandle.p1.x * b.width)
            (p.y * b.height - hitHandle.p1.y * b.height) <
            HANDLE_HIT_RADIUS * HANDLE_HIT_RADIUS
          then DragType.p1 else DragType.p2)) := by
  induction lines with
  | nil => rfl
  | cons line rest ih =>
    by_cases h1 : hypotSq (p.x * b.width - line.p1.x * b.width)
        (p.y * b.height - line.p1.y * b.height) < HANDLE_HIT_RADIUS * HANDLE_HIT_RADIUS
    · have hp : handlePred b p line = true := by
        simp [handlePred, h1]
      have hn : nearHandle b p line.p1 = true := (nearHandle_eq_true_iff b p line.p1).mpr h1
      simp [scanHandles, hn, List.find?_cons_of_pos _ hp, h1]
    · by_cases h2 : hypotSq (p.x * b.width - line.p2.x * b.width)
          (p.y * b.height - line.p2.y * b.height) < HANDLE_HIT_RADIUS * HANDLE_HIT_RADIUS
      · have hp : handlePred b p line = true := by
          simp [handlePred, h2]
        have hn1 : ¬ nearHandle b p line.p1 = true := by
          rw [nearHandle_eq_true_iff]; exact h1
        have hn2 : nearHandle b p line.p2 = true := (nearHandle_eq_true_iff b p line.p2).mpr h2
        simp [scanHandles, hn1, hn2, List.find?_cons_of_pos _ hp, h1]
      · have hp : ¬ handlePred b p line = true := by
          simp [handlePred, h1, h2]
        have hn1 : ¬ nearHandle b p line.p1 = true := by
          rw [nearHandle_eq_true_iff]; exact h1
        have hn2 : ¬ nearHandle b p line.p2 = true := by
          rw [nearHandle_eq_true_iff]; exact h2
        simp only [scanHandles]
        rw [if_neg hn1, if_neg hn2, List.find?_cons_of_neg _ hp]
        exact ih

lemma scanBodies_spec (b : Rect) (p : Point) (lines : List LineShape) :
    scanBodies b p lines =
      (lines.find? (bodyPred b p)).map (fun hitLine => (hitLine, DragType.move)) := by
  induction lines with
  | nil => rfl
  | cons line rest ih =>
    by_cases h : distanceToSegmentSq p line.p1 line.p2 b.width b.height <
        LINE_HIT_THRESHOLD * LINE_HIT_THRESHOLD
    · have hp : bodyPred b p line = true := by simp [bodyPred, h]
      simp [scanBodies, h, List.find?_cons_of_pos _ hp]
    · have hp : ¬ bodyPred b p line = true := by simp [bodyPred, h]
      simp only [scanBodies, if_neg h, List.find?_cons_of_neg _ hp]
      exact ih

/-- C6: the hit tester scans all lines in list order for an endpoint
within the handle-hit radius and returns the first such line with target
`p1` if the point is within radius of that line's `p1`, else `p2`; only
when no handle matches does it scan in list order for a line whose body
is within the (smaller) line-hit threshold, returning target `move`;
with no match at all it returns `(none, none)`.  The result is a
function of the point and the line list (given the video bounds), hence
deterministic. -/
theorem findHit_matches_spec (b : Rect) (lines : List LineShape) (p : Point) :
    findHit (some b) lines p = findHitSpec b lines p ∧
    LINE_HIT_THRESHOLD < HANDLE_HIT_RADIUS := by
  refine ⟨?_, by norm_num [LINE_HIT_THRESHOLD, HANDLE_HIT_RADIUS]⟩
  rw [findHit_eq]
  unfold findHitSpec
  rw [scanHandles_spec, scanBodies_spec]
  cases lines.find? (handlePred b p) with
  | some hitHandle => simp
  | none =>
    cases lines.find? (bodyPred b p) with
    | some hitLine => simp
    | none => simp

/-- C7: `distanceToSegment` is total: the guarded squared segment length
(the JS `dx*dx + dy*dy || 1`) is never zero, so the projection's
division is never by zero; and for a degenerate segment `a = b` the
result is the point-to-point squared pixel distance from `p` to `a`
(squares of two nonnegative distances are equal exactly when the
distances are). -/
theorem distanceToSegment_total (p a b : Point) (w h : ℚ) :
    segLenSqGuard a b w h ≠ 0 ∧
    (a = b → distanceToSegmentSq p a b w h =
      hypotSq (p.x * w - a.x * w) (p.y * h - a.y * h)) := by
  constructor
  · unfold segLenSqGuard
    dsimp only
    split
    · exact one_ne_zero
    · assumption
  · intro hab
    subst hab
    unfold distanceToSegmentSq segLenSqGuard hypotSq
    simp

/-- Witness for C7 at `p = (0,0)`, `a = b = (1/2, 1/2)`, `w = h = 100`. -/
theorem distanceToSegment_total_witness :
    segLenSqGuard ⟨1/2, 1/2⟩ ⟨1/2, 1/2⟩ 100 100 ≠ 0 ∧
    distanceToSegmentSq ⟨0, 0⟩ ⟨1/2, 1/2⟩ ⟨1/2, 1/2⟩ 100 100 =
      hypotSq ((0 : ℚ) * 100 - (1/2) * 100) ((0 : ℚ) * 100 - (1/2) * 100) :=
  ⟨(distanceToSegment_total ⟨0, 0⟩ ⟨1/2, 1/2⟩ ⟨1/2, 1/2⟩ 100 100).1,
   (distanceToSegment_total ⟨0, 0⟩ ⟨1/2, 1/2⟩ ⟨1/2, 1/2⟩ 100 100).2 rfl⟩

/-- C5: the coordinate mapper returns `none` exactly when there are no
video bounds or the container-local pixel position lies outside the
bounds rectangle; otherwise it returns the normalized position clamped
componentwise to [0,1]. -/
theorem toNormalizedPoint_spec (rect : BoundingRect) (vb : Option Rect) (cx cy : ℚ) :
    (toNormalizedPoint rect vb cx cy = none ↔
      vb = none ∨ ∃ b, vb = some b ∧
        ¬(b.x ≤ cx - rect.left ∧ cx - rect.left ≤ b.x + b.width ∧
          b.y ≤ cy - rect.top ∧ cy - rect.top ≤ b.y + b.height)) ∧
    (∀ b, vb = some b →
      (b.x ≤ cx - rect.left ∧ cx - rect.left ≤ b.x + b.width ∧
       b.y ≤ cy - rect.top ∧ cy - rect.top ≤ b.y + b.height) →
      toNormalizedPoint rect vb cx cy =
        some (clampPoint { x := (cx - rect.left - b.x) / b.width,
                           y := (cy - rect.top - b.y) / b.height })) := by
  cases vb with
  | none => simp [toNormalizedPoint]
  | some b =>
    have hout : (cx - rect.left < b.x ∨ cx - rect.left > b.x + b.width ∨
        cy - rect.top < b.y ∨ cy - rect.top > b.y + b.height) ↔
        ¬(b.x ≤ cx - rect.left ∧ cx - rect.left ≤ b.x + b.width ∧
          b.y ≤ cy - rect.top ∧ cy - rect.top ≤ b.y + b.height) := by
      constructor
      · rintro (hlt | hlt | hlt | hlt) ⟨hc1, hc2, hc3, hc4⟩ <;> linarith
      · intro hni
        by_contra hc
        push_neg at hc
        exact hni ⟨hc.1, hc.2.1, hc.2.2.1, hc.2.2.2⟩
    constructor
    · simp only [toNormalizedPoint]
      split
      case isTrue hcond =>
        simp only [true_iff]
        exact Or.inr ⟨b, rfl, hout.mp hcond⟩
      case isFalse hcond =>
        simp only [reduceCtorEq, false_iff]
        push_neg
        refine ⟨by simp, fun b' hb' => ?_⟩
        cases hb'
        by_contra hni
        exact hcond (hout.mpr hni)
    · intro b' hb' hin
      cases hb'
      simp only [toNormalizedPoint]
      rw [if_neg (fun hcond => (hout.mp hcond) hin)]

/-- Witness for C5 at bounds `(10, 10, 100, 50)`, container origin
`(0, 0)`, pointer at `(60, 35)` (inside the bounds). -/
theorem toNormalizedPoint_spec_witness :
    toNormalizedPoint ⟨0, 0⟩ (some ⟨10, 10, 100, 50⟩) 60 35 =
      some (clampPoint { x := ((60 : ℚ) - 0 - 10) / 100, y := ((35 : ℚ) - 0 - 10) / 50 }) :=
  (toNormalizedPoint_spec ⟨0, 0⟩ (some ⟨10, 10, 100, 50⟩) 60 35).2
    ⟨10, 10, 100, 50⟩ rfl (by norm_num)

/-!  ## C1: redo never pops the redo stack (code defect)  -/

/-- C1 (code defect): from the state reached after committing a single
Add, Undo empties the lines and history and moves the entry to the redo
stack; the following Redo re-applies the forward action (the line and
the history entry are back), but the redo stack still holds the entry —
`handleRedo`'s `setRedoStack` callback ends in `return prev` instead of
popping, so a second Redo appends the same line again, duplicating its
id. -/
theorem redo_does_not_pop_redo_stack :
    (let l : LineShape := { id := "a", type := "line", p1 := ⟨0, 0⟩, p2 := ⟨1, 1⟩,
                            createdAt := 0 };
     let s : DrawState := { lines := [l], draftLine := none, selectedId := some "a",
                            history := [DrawingAction.add l], redoStack := [],
                            editSession := none };
     (handleUndo s).redoStack = [DrawingAction.add l] ∧
     (handleUndo s).lines = [] ∧
     (handleUndo s).history = [] ∧
     (handleRedo (handleUndo s)).lines = [l] ∧
     (handleRedo (handleUndo s)).history = [DrawingAction.add l] ∧
     (handleRedo (handleUndo s)).redoStack = [DrawingAction.add l] ∧
     (handleRedo (handleRedo (handleUndo s))).lines = [l, l]) := by
  decide

/-!  ## C9: only the Delete key is bound, not Backspace  -/

/-- C9 counterexample: with a line selected and focus not on a text
control, pressing Backspace leaves the state unchanged — the listener
only reacts to the key 'Delete', so Backspace does not remove the
selected line as the claim states. -/
theorem backspace_does_not_delete :
    (let l : LineShape := { id := "k1", type := "line", p1 := ⟨0, 0⟩, p2 := ⟨1, 1⟩,
                            createdAt := 0 };
     let s : DrawState := { lines := [l], draftLine := none, selectedId := some "k1",
                            history := [], redoStack := [], editSession := none };
     handleKeyDown "Backspace" none s = s ∧
     s.selectedId = some "k1" ∧
     s.lines = [l] ∧
     (handleKeyDown "Delete" none s).lines = []) := by
  decide

/-- C9 amended: pressing Delete (Backspace is not bound) while a
selection exists removes the selected line via `deleteSelected`, unless
the focused element is a text-entry control (INPUT, TEXTAREA, SELECT),
in which case — and for any other key, Backspace included — the state
is unchanged. -/
theorem delete_key_spec (key : String) (activeTag : Option String) (s : DrawState) :
    handleKeyDown "Backspace" activeTag s = s ∧
    ((activeTag = some "INPUT" ∨ activeTag = some "TEXTAREA" ∨ activeTag = some "SELECT") →
      handleKeyDown key activeTag s = s) ∧
    (key ≠ "Delete" → handleKeyDown key activeTag s = s) ∧
    (key = "Delete" → s.selectedId ≠ none →
      (∀ t, activeTag = some t → t ≠ "INPUT" ∧ t ≠ "TEXTAREA" ∧ t ≠ "SELECT") →
      handleKeyDown key activeTag s = deleteSelected s) := by
  refine ⟨?_, ?_, ?_, ?_⟩
  · unfold handleKeyDown
    rw [if_pos (Or.inl (by decide))]
  · rintro (htag | htag | htag) <;>
    · subst htag
      unfold handleKeyDown
      split
      · rfl
      · simp
  · intro hk
    unfold handleKeyDown
    rw [if_pos (Or.inl hk)]
  · intro hk hsel htag
    subst hk
    unfold handleKeyDown
    rw [if_neg (by simp [hsel])]
    cases activeTag with
    | none => rfl
    | some t =>
      obtain ⟨h1, h2, h3⟩ := htag t rfl
      simp only []
      rw [if_neg (by simp [h1, h2, h3])]

/-- Witness for C9's amended theorem: Delete with a selection and no
text-control focus performs the deletion; the state's line list becomes
empty. -/
theorem delete_key_spec_witness :
    (let l : LineShape := { id := "k1", type := "line", p1 := ⟨0, 0⟩, p2 := ⟨1, 1⟩,
                            createdAt := 0 };
     let s : DrawState := { lines := [l], draftLine := none, selectedId := some "k1",
                            history := [], redoStack := [], editSession := none };
     handleKeyDown "Delete" (some "DIV") s = deleteSelected s) :=
  (delete_key_spec "Delete" (some "DIV")
      { lines := [{ id := "k1", type := "line", p1 := ⟨0, 0⟩, p2 := ⟨1, 1⟩, createdAt := 0 }],
        draftLine := none, selectedId := some "k1",
        history := [], redoStack := [], editSession := none }).2.2.2
    rfl (by decide) (by intro t ht; cases ht; decide)

/-!  ## C2: the selection invariant  -/

/-- Selection id, if non-null, references a line currently in the
committed list. -/
def SelInv (s : DrawState) : Prop :=
  ∀ sid, s.selectedId = some sid → ∃ l ∈ s.lines, l.id = sid

lemma findHit_mem_some (b : Rect) (lines : List LineShape) (p : Point)
    (line : LineShape) (t : Option DragType)
    (h : findHit (some b) lines p = (some line, t)) : line ∈ lines := by
  rw [findHit_eq] at h
  cases hf : lines.find? (handlePred b p) with
  | some hitHandle =>
    rw [hf] at h
    have hl : hitHandle = line := by
      simpa using congrArg Prod.fst h
    exact hl ▸ List.mem_of_find?_eq_some hf
  | none =>
    rw [hf] at h
    cases hg : lines.find? (bodyPred b p) with
    | some hitLine =>
      rw [hg] at h
      have hl : hitLine = line := by
        simpa using congrArg Prod.fst h
      exact hl ▸ List.mem_of_find?_eq_some hg
    | none =>
      rw [hg] at h
      simp at h

lemma findHit_mem (vb : Option Rect) (lines : List LineShape) (p : Point)
    (line : LineShape) (t : Option DragType)
    (h : findHit vb lines p = (some line, t)) : line ∈ lines := by
  cases vb with
  | none => simp [findHit] at h
  | some b => exact findHit_mem_some b lines p line t h

/-! Branch-wise evaluation lemmas for `handlePointerDown`. -/

/-! Branch-wise evaluation lemmas for `handlePointerDown`. -/

lemma pointerDown_other_mode (appMode : String) (videoUrl : Option String) (button : ℕ)
    (tgt : Bool) (rect : BoundingRect) (vb : Option Rect) (cx cy : ℚ)
    (newId : String) (now : ℤ) (s : DrawState) (ha : appMode ≠ "draw") :
    handlePointerDown appMode videoUrl button tgt rect vb cx cy newId now s = s := by
  unfold handlePointerDown
  rw [if_pos ha]

lemma pointerDown_gated (videoUrl : Option String) (button : ℕ)
    (tgt : Bool) (rect : BoundingRect) (vb : Option Rect) (cx cy : ℚ)
    (newId : String) (now : ℤ) (s : DrawState) (hg : videoUrl = none ∨ button = 2) :
    handlePointerDown "draw" videoUrl button tgt rect vb cx cy newId now s = s := by
  unfold handlePointerDown
  rw [if_neg (by simp), if_pos hg]

lemma pointerDown_on_control (videoUrl : Option String) (button : ℕ)
    (rect : BoundingRect) (vb : Option Rect) (cx cy : ℚ)
    (newId : String) (now : ℤ) (s : DrawState) (hg : ¬(videoUrl = none ∨ button = 2)) :
    handlePointerDown "draw" videoUrl button true rect vb cx cy newId now s = s := by
  unfold handlePointerDown
  rw [if_neg (by simp), if_neg hg, if_pos rfl]

lemma pointerDown_hit (videoUrl : Option String) (button : ℕ)
    (rect : BoundingRect) (vb : Option Rect) (cx cy : ℚ) (newId : String) (now : ℤ)
    (s : DrawState) (p : Point) (line : LineShape) (otgt : Option DragType)
    (hg : ¬(videoUrl = none ∨ button = 2))
    (hpt : toNormalizedPoint rect vb cx cy = some p)
    (hhit : findHit vb s.lines p = (some line, otgt)) :
    handlePointerDown "draw" videoUrl button false rect vb cx cy newId now s =
      { s with selectedId := some line.id,
               editSession := otgt.map (fun t =>
                 { id := line.id, before := line, lastPointer := p, type := t }) } := by
  simp [handlePointerDown, hg, hpt, hhit]

lemma pointerDown_miss_noSel (videoUrl : Option String) (button : ℕ)
    (rect : BoundingRect) (vb : Option Rect) (cx cy : ℚ) (newId : String) (now : ℤ)
    (s : DrawState) (p : Point) (otgt : Option DragType)
    (hg : ¬(videoUrl = none ∨ button = 2))
    (hpt : toNormalizedPoint rect vb cx cy = some p)
    (hhit : findHit vb s.lines p = (none, otgt))
    (hsel : s.selectedId = none) :
    handlePointerDown "draw" videoUrl button false rect vb cx cy newId now s =
      { s with draftLine := some { id := newId, type := "line", p1 := p, p2 := p,
                                   createdAt := now } } := by
  simp [handlePointerDown, hg, hpt, hhit, hsel]

lemma pointerDown_miss_sel (videoUrl : Option String) (button : ℕ)
    (rect : BoundingRect) (vb : Option Rect) (cx cy : ℚ) (newId : String) (now : ℤ)
    (s : DrawState) (p : Point) (otgt : Option DragType) (sid : String)
    (hg : ¬(videoUrl = none ∨ button = 2))
    (hpt : toNormalizedPoint rect vb cx cy = some p)
    (hhit : findHit vb s.lines p = (none, otgt))
    (hsel : s.selectedId = some sid) :
    handlePointerDown "draw" videoUrl button false rect vb cx cy newId now s =
      { s with selectedId := none, editSession := none } := by
  simp [handlePointerDown, hg, hpt, hhit, hsel]

lemma pointerDown_noPoint_noSel (videoUrl : Option String) (button : ℕ)
    (rect : BoundingRect) (vb : Option Rect) (cx cy : ℚ) (newId : String) (now : ℤ)
    (s : DrawState)
    (hg : ¬(videoUrl = none ∨ button = 2))
    (hpt : toNormalizedPoint rect vb cx cy = none)
    (hsel : s.selectedId = none) :
    handlePointerDown "draw" videoUrl button false rect vb cx cy newId now s = s := by
  simp [handlePointerDown, hg, hpt, hsel]

lemma pointerDown_noPoint_sel (videoUrl : Option String) (button : ℕ)
    (rect : BoundingRect) (vb : Option Rect) (cx cy : ℚ) (newId : String) (now : ℤ)
    (s : DrawState) (sid : String)
    (hg : ¬(videoUrl = none ∨ button = 2))
    (hpt : toNormalizedPoint rect vb cx cy = none)
    (hsel : s.selectedId = some sid) :
    handlePointerDown "draw" videoUrl button false rect vb cx cy newId now s =
      { s with selectedId := none, editSession := none } := by
  simp [handlePointerDown, hg, hpt, hsel]

lemma selInv_pointerDown (appMode : String) (videoUrl : Option String) (button : ℕ)
    (tgt : Bool) (rect : BoundingRect) (vb : Option Rect) (cx cy : ℚ)
    (newId : String) (now : ℤ) (s : DrawState) (hs : SelInv s) :
    SelInv (handlePointerDown appMode videoUrl button tgt rect vb cx cy newId now s) := by
  by_cases ha : appMode = "draw"
  case neg =>
    rw [pointerDown_other_mode _ _ _ _ _ _ _ _ _ _ _ ha]; exact hs
  subst ha
  by_cases hg : videoUrl = none ∨ button = 2
  case pos =>
    rw [pointerDown_gated _ _ _ _ _ _ _ _ _ _ hg]; exact hs
  cases tgt with
  | true =>
    rw [pointerDown_on_control _ _ _ _ _ _ _ _ _ hg]; exact hs
  | false =>
    cases hpt : toNormalizedPoint rect vb cx cy with
    | none =>
      cases hsel : s.selectedId with
      | none =>
        rw [pointerDown_noPoint_noSel _ _ _ _ _ _ _ _ _ hg hpt hsel]; exact hs
      | some sid =>
        rw [pointerDown_noPoint_sel _ _ _ _ _ _ _ _ _ _ hg hpt hsel]
        intro sid' hsid'
        simp at hsid'
    | some p =>
      cases hhit : findHit vb s.lines p with
      | mk oline otgt' =>
        cases oline with
        | some line =>
          rw [pointerDown_hit _ _ _ _ _ _ _ _ _ _ _ _ hg hpt hhit]
          intro sid' hsid'
          simp only [Option.some.injEq] at hsid'
          exact ⟨line, findHit_mem vb s.lines p line _ hhit, hsid'⟩
        | none =>
          cases hsel : s.selectedId with
          | none =>
            rw [pointerDown_miss_noSel _ _ _ _ _ _ _ _ _ _ _ hg hpt hhit hsel]
            intro sid' hsid'
            exact hs sid' hsid'
          | some sid =>
            rw [pointerDown_miss_sel _ _ _ _ _ _ _ _ _ _ _ _ hg hpt hhit hsel]
            intro sid' hsid'
            simp at hsid'

/-! Branch-wise evaluation lemmas for `handlePointerMove`. -/

lemma pointerMove_other_mode (appMode : String) (rect : BoundingRect) (vb : Option Rect)
    (cx cy : ℚ) (s : DrawState) (ha : appMode ≠ "draw") :
    handlePointerMove appMode rect vb cx cy s = s := by
  unfold handlePointerMove
  rw [if_pos ha]

lemma pointerMove_draft_noPoint (rect : BoundingRect) (vb : Option Rect)
    (cx cy : ℚ) (s : DrawState) (draft : LineShape)
    (hd : s.draftLine = some draft) (hpt : toNormalizedPoint rect vb cx cy = none) :
    handlePointerMove "draw" rect vb cx cy s = s := by
  simp [handlePointerMove, hd, hpt]

lemma pointerMove_draft_point (rect : BoundingRect) (vb : Option Rect)
    (cx cy : ℚ) (s : DrawState) (draft : LineShape) (p : Point)
    (hd : s.draftLine = some draft) (hpt : toNormalizedPoint rect vb cx cy = some p) :
    handlePointerMove "draw" rect vb cx cy s =
      { s with draftLine := some { draft with p2 := p } } := by
  simp [handlePointerMove, hd, hpt]

lemma pointerMove_noDraft_noPoint (rect : BoundingRect) (vb : Option Rect)
    (cx cy : ℚ) (s : DrawState)
    (hd : s.draftLine = none) (hpt : toNormalizedPoint rect vb cx cy = none) :
    handlePointerMove "draw" rect vb cx cy s = s := by
  simp [handlePointerMove, hd, hpt]

lemma pointerMove_noSession (rect : BoundingRect) (vb : Option Rect)
    (cx cy : ℚ) (s : DrawState) (p : Point)
    (hd : s.draftLine = none) (hpt : toNormalizedPoint rect vb cx cy = some p)
    (hses : s.editSession = none) :
    handlePointerMove "draw" rect vb cx cy s = s := by
  simp [handlePointerMove, hd, hpt, hses]

lemma pointerMove_session_fields (rect : BoundingRect) (vb : Option Rect)
    (cx cy : ℚ) (s : DrawState) (p : Point) (session : EditSession)
    (hd : s.draftLine = none) (hpt : toNormalizedPoint rect vb cx cy = some p)
    (hses : s.editSession = some session) :
    (handlePointerMove "draw" rect vb cx cy s).selectedId = s.selectedId ∧
    (handlePointerMove "draw" rect vb cx cy s).draftLine = s.draftLine ∧
    (handlePointerMove "draw" rect vb cx cy s).history = s.history ∧
    (handlePointerMove "draw" rect vb cx cy s).redoStack = s.redoStack ∧
    ∃ f : LineShape → LineShape, (∀ l, (f l).id = l.id) ∧
      (handlePointerMove "draw" rect vb cx cy s).lines = s.lines.map f := by
  refine ⟨by simp [handlePointerMove, hd, hpt, hses], by simp [handlePointerMove, hd, hpt, hses],
    by simp [handlePointerMove, hd, hpt, hses], by simp [handlePointerMove, hd, hpt, hses], ?_⟩
  simp only [handlePointerMove, hd, hpt, hses]
  refine ⟨_, ?_, rfl⟩
  intro l
  split
  all_goals first
  | rfl
  | (cases session.type <;> rfl)

lemma selInv_pointerMove (appMode : String) (rect : BoundingRect) (vb : Option Rect)
    (cx cy : ℚ) (s : DrawState) (hs : SelInv s) :
    SelInv (handlePointerMove appMode rect vb cx cy s) := by
  by_cases ha : appMode = "draw"
  case neg =>
    rw [pointerMove_other_mode _ _ _ _ _ _ ha]; exact hs
  subst ha
  cases hd : s.draftLine with
  | some draft =>
    cases hpt : toNormalizedPoint rect vb cx cy with
    | none => rw [pointerMove_draft_noPoint _ _ _ _ _ _ hd hpt]; exact hs
    | some p =>
      rw [pointerMove_draft_point _ _ _ _ _ _ _ hd hpt]
      intro sid hsid
      exact hs sid hsid
  | none =>
    cases hpt : toNormalizedPoint rect vb cx cy with
    | none => rw [pointerMove_noDraft_noPoint _ _ _ _ _ hd hpt]; exact hs
    | some p =>
      cases hses : s.editSession with
      | none => rw [pointerMove_noSession _ _ _ _ _ _ hd hpt hses]; exact hs
      | some session =>
        obtain ⟨hsel, _, _, _, f, hfid, hlines⟩ :=
          pointerMove_session_fields rect vb cx cy s p session hd hpt hses
        intro sid hsid
        rw [hsel] at hsid
        obtain ⟨l, hml, hid⟩ := hs sid hsid
        exact ⟨f l, by rw [hlines]; exact List.mem_map_of_mem f hml, by rw [hfid l]; exact hid⟩

/-! Branch-wise evaluation lemmas for `handlePointerUp`. -/

lemma pointerUp_other_mode (appMode : String) (s : DrawState) (ha : appMode ≠ "draw") :
    handlePointerUp appMode s = s := by
  unfold handlePointerUp
  rw [if_pos ha]

lemma pointerUp_draft_eq (s : DrawState) (draft : LineShape)
    (hd : s.draftLine = some draft) :
    handlePointerUp "draw" s =
      { s with lines := s.lines ++ [draft],
               history := sliceLast HISTORY_LIMIT (s.history ++ [DrawingAction.add draft]),
               redoStack := [],
               draftLine := none,
               selectedId := some draft.id } := by
  unfold handlePointerUp pushHistory
  rw [if_neg (by simp), hd]

lemma pointerUp_noSession (s : DrawState)
    (hd : s.draftLine = none) (hses : s.editSession = none) :
    handlePointerUp "draw" s = { s with editSession := none } := by
  simp [handlePointerUp, hd, hses]

lemma pointerUp_session_missing (s : DrawState) (session : EditSession)
    (hd : s.draftLine = none) (hses : s.editSession = some session)
    (hf : s.lines.find? (fun l => l.id == session.id) = none) :
    handlePointerUp "draw" s = { s with editSession := none } := by
  simp [handlePointerUp, hd, hses, hf]

lemma pointerUp_session_push (s : DrawState) (session : EditSession) (updated : LineShape)
    (hd : s.draftLine = none) (hses : s.editSession = some session)
    (hf : s.lines.find? (fun l => l.id == session.id) = some updated)
    (hdiff : updated.p1.x ≠ session.before.p1.x ∨ updated.p1.y ≠ session.before.p1.y ∨
             updated.p2.x ≠ session.before.p2.x ∨ updated.p2.y ≠ session.before.p2.y) :
    handlePointerUp "draw" s =
      { s with history := sliceLast HISTORY_LIMIT
                 (s.history ++ [DrawingAction.update session.before updated]),
               redoStack := [],
               editSession := none } := by
  simp [handlePointerUp, pushHistory, hd, hses, hf, if_pos hdiff]

lemma pointerUp_session_noPush (s : DrawState) (session : EditSession) (updated : LineShape)
    (hd : s.draftLine = none) (hses : s.editSession = some session)
    (hf : s.lines.find? (fun l => l.id == session.id) = some updated)
    (hsame : ¬(updated.p1.x ≠ session.before.p1.x ∨ updated.p1.y ≠ session.before.p1.y ∨
               updated.p2.x ≠ session.before.p2.x ∨ updated.p2.y ≠ session.before.p2.y)) :
    handlePointerUp "draw" s = { s with editSession := none } := by
  simp [handlePointerUp, hd, hses, hf, hsame]

lemma pointerUp_noDraft_fields (s : DrawState) (hd : s.draftLine = none) :
    (handlePointerUp "draw" s).lines = s.lines ∧
    (handlePointerUp "draw" s).selectedId = s.selectedId ∧
    (handlePointerUp "draw" s).draftLine = none ∧
    (handlePointerUp "draw" s).editSession = none ∧
    (((handlePointerUp "draw" s).history = s.history ∧
      (handlePointerUp "draw" s).redoStack = s.redoStack) ∨
     ∃ a, (handlePointerUp "draw" s).history = sliceLast HISTORY_LIMIT (s.history ++ [a]) ∧
       (handlePointerUp "draw" s).redoStack = []) := by
  cases hses : s.editSession with
  | none =>
    rw [pointerUp_noSession s hd hses]
    exact ⟨rfl, rfl, hd, rfl, Or.inl ⟨rfl, rfl⟩⟩
  | some session =>
    cases hf : s.lines.find? (fun l => l.id == session.id) with
    | none =>
      rw [pointerUp_session_missing s session hd hses hf]
      exact ⟨rfl, rfl, hd, rfl, Or.inl ⟨rfl, rfl⟩⟩
    | some updated =>
      by_cases hdiff : updated.p1.x ≠ session.before.p1.x ∨
          updated.p1.y ≠ session.before.p1.y ∨
          updated.p2.x ≠ session.before.p2.x ∨ updated.p2.y ≠ session.before.p2.y
      · rw [pointerUp_session_push s session updated hd hses hf hdiff]
        exact ⟨rfl, rfl, hd, rfl,
          Or.inr ⟨DrawingAction.update session.before updated, rfl, rfl⟩⟩
      · rw [pointerUp_session_noPush s session updated hd hses hf hdiff]
        exact ⟨rfl, rfl, hd, rfl, Or.inl ⟨rfl, rfl⟩⟩


lemma selInv_pointerUp (appMode : String) (s : DrawState) (hs : SelInv s) :
    SelInv (handlePointerUp appMode s) := by
  by_cases ha : appMode = "draw"
  · subst ha
    cases hdr : s.draftLine with
    | some draft =>
      rw [pointerUp_draft_eq s draft hdr]
      intro sid hsid
      simp only [Option.some.injEq] at hsid
      exact ⟨draft, by simp, hsid⟩
    | none =>
      obtain ⟨hl, hsel, _, _, _⟩ := pointerUp_noDraft_fields s hdr
      intro sid hsid
      rw [hsel] at hsid
      obtain ⟨l, hml, hid⟩ := hs sid hsid
      exact ⟨l, by rw [hl]; exact hml, hid⟩
  · rw [pointerUp_other_mode appMode s ha]
    exact hs

/-! Branch-wise evaluation lemmas for `deleteSelected`. -/

lemma deleteSelected_noSel (s : DrawState) (hsel : s.selectedId = none) :
    deleteSelected s = s := by
  simp [deleteSelected, hsel]

lemma deleteSelected_missing (s : DrawState) (sid : String)
    (hsel : s.selectedId = some sid)
    (hf : s.lines.find? (fun l => l.id == sid) = none) :
    deleteSelected s = s := by
  simp [deleteSelected, hsel, hf]

lemma deleteSelected_found (s : DrawState) (sid : String) (line : LineShape)
    (hsel : s.selectedId = some sid)
    (hf : s.lines.find? (fun l => l.id == sid) = some line) :
    deleteSelected s =
      { s with lines := s.lines.filter (fun l => l.id != sid),
               history := sliceLast HISTORY_LIMIT (s.history ++ [DrawingAction.delete line]),
               redoStack := [],
               selectedId := none } := by
  simp [deleteSelected, pushHistory, hsel, hf]

lemma find?_of_exists_id (lines : List LineShape) (sid : String)
    (h : ∃ l ∈ lines, l.id = sid) :
    ∃ line, lines.find? (fun l => l.id == sid) = some line := by
  cases hf : lines.find? (fun l => l.id == sid) with
  | some line => exact ⟨line, rfl⟩
  | none =>
    obtain ⟨l, hml, hlid⟩ := h
    have := List.find?_eq_none.mp hf l hml
    simp [hlid] at this

lemma selInv_deleteSelected (s : DrawState) (hs : SelInv s) :
    SelInv (deleteSelected s) := by
  cases hsel : s.selectedId with
  | none => rw [deleteSelected_noSel s hsel]; exact hs
  | some sid =>
    cases hf : s.lines.find? (fun l => l.id == sid) with
    | none => rw [deleteSelected_missing s sid hsel hf]; exact hs
    | some line =>
      rw [deleteSelected_found s sid line hsel hf]
      intro sid' hsid'
      simp at hsid'

lemma deleteSelected_clears (s : DrawState) (hs : SelInv s)
    (hsel : s.selectedId ≠ none) : (deleteSelected s).selectedId = none := by
  cases hsel' : s.selectedId with
  | none => exact absurd hsel' hsel
  | some sid =>
    obtain ⟨line, hf⟩ := find?_of_exists_id s.lines sid (hs sid hsel')
    rw [deleteSelected_found s sid line hsel' hf]

lemma keyDown_cases (key : String) (activeTag : Option String) (s : DrawState) :
    handleKeyDown key activeTag s = s ∨ handleKeyDown key activeTag s = deleteSelected s := by
  unfold handleKeyDown
  split
  · exact Or.inl rfl
  · cases activeTag with
    | none => exact Or.inr rfl
    | some tag =>
      by_cases htag : tag = "INPUT" ∨ tag = "TEXTAREA" ∨ tag = "SELECT"
      · exact Or.inl (if_pos htag)
      · exact Or.inr (if_neg htag)

/-- C2 amended: across PointerDown, PointerMove, PointerUp,
DeleteSelected, Reset, ClearInteraction and the keyboard listener, a
non-null selection id always references a line present in the committed
list, and deletion and reset clear the selection immediately.  Undo and
Redo are excluded: they never touch the selection, so undoing the Add of
the selected line (or redoing its Delete) leaves a dangling selection
id — see the counterexample. -/
theorem selection_references_existing_line (appMode : String) (videoUrl : Option String)
    (button : ℕ) (tgt : Bool) (rect : BoundingRect) (vb : Option Rect) (cx cy : ℚ)
    (newId : String) (now : ℤ) (nextLines : List LineShape) (key : String)
    (activeTag : Option String) (s : DrawState) (hs : SelInv s) :
    SelInv (handlePointerDown appMode videoUrl button tgt rect vb cx cy newId now s) ∧
    SelInv (handlePointerMove appMode rect vb cx cy s) ∧
    SelInv (handlePointerUp appMode s) ∧
    SelInv (deleteSelected s) ∧
    SelInv (resetDrawing nextLines s) ∧
    SelInv (clearInteraction s) ∧
    SelInv (handleKeyDown key activeTag s) ∧
    (s.selectedId ≠ none → (deleteSelected s).selectedId = none) ∧
    (resetDrawing nextLines s).selectedId = none := by
  refine ⟨selInv_pointerDown appMode videoUrl button tgt rect vb cx cy newId now s hs,
    selInv_pointerMove appMode rect vb cx cy s hs,
    selInv_pointerUp appMode s hs,
    selInv_deleteSelected s hs,
    ?_, ?_, ?_,
    deleteSelected_clears s hs, rfl⟩
  · intro sid hsid
    simp [resetDrawing] at hsid
  · intro sid hsid
    simp only [clearInteraction] at hsid
    simp at hsid
  · rcases keyDown_cases key activeTag s with h | h
    · rw [h]; exact hs
    · rw [h]; exact selInv_deleteSelected s hs

/-- Witness for C2's amended theorem at the initial state. -/
theorem selection_references_existing_line_witness :
    SelInv (handlePointerDown "draw" (some "v") 0 false ⟨0, 0⟩
      (some ⟨0, 0, 100, 100⟩) 20 20 "n1" 7 initialState) ∧
    SelInv (handlePointerMove "draw" ⟨0, 0⟩ (some ⟨0, 0, 100, 100⟩) 20 20 initialState) ∧
    SelInv (handlePointerUp "draw" initialState) ∧
    SelInv (deleteSelected initialState) ∧
    SelInv (resetDrawing [] initialState) ∧
    SelInv (clearInteraction initialState) ∧
    SelInv (handleKeyDown "Delete" none initialState) ∧
    (initialState.selectedId ≠ none → (deleteSelected initialState).selectedId = none) ∧
    (resetDrawing [] initialState).selectedId = none :=
  selection_references_existing_line "draw" (some "v") 0 false ⟨0, 0⟩
    (some ⟨0, 0, 100, 100⟩) 20 20 "n1" 7 [] "Delete" none initialState
    (fun sid h => by simp [initialState] at h)

/-- C2 counterexample: draw one line (PointerDown at (20,20) on a
100×100 video, PointerUp commits and selects it), then Undo.  The line
is removed but the selection still holds its id, so the claimed
invariant fails for the Undo operation. -/
theorem undo_leaves_dangling_selection :
    (handleUndo (handlePointerUp "draw" (handlePointerDown "draw" (some "video") 0 false
        ⟨0, 0⟩ (some ⟨0, 0, 100, 100⟩) 20 20 "n1" 7 initialState))).selectedId = some "n1" ∧
    (handleUndo (handlePointerUp "draw" (handlePointerDown "draw" (some "video") 0 false
        ⟨0, 0⟩ (some ⟨0, 0, 100, 100⟩) 20 20 "n1" 7 initialState))).lines = [] := by
  have hg : ¬((some "video" : Option String) = none ∨ (0 : ℕ) = 2) := by simp
  have hpt : toNormalizedPoint ⟨0, 0⟩ (some ⟨0, 0, 100, 100⟩) 20 20 =
      some ⟨1/5, 1/5⟩ := by
    simp [toNormalizedPoint, clampPoint]
    norm_num
  have hhit : findHit (some ⟨0, 0, 100, 100⟩) initialState.lines ⟨1/5, 1/5⟩ =
      (none, none) := rfl
  have h1 := pointerDown_miss_noSel (some "video") 0 ⟨0, 0⟩ (some ⟨0, 0, 100, 100⟩)
    20 20 "n1" 7 initialState ⟨1/5, 1/5⟩ none hg hpt hhit rfl
  rw [h1, pointerUp_draft_eq _ _ rfl]
  constructor <;> simp [handleUndo, initialState, sliceLast, applyInverse, HISTORY_LIMIT]

/-!  ## C4: both stacks stay within the 50-entry cap  -/

/-- Both history stacks hold at most `HISTORY_LIMIT` entries. -/
def stacksBounded (s : DrawState) : Prop :=
  s.history.length ≤ HISTORY_LIMIT ∧ s.redoStack.length ≤ HISTORY_LIMIT

lemma sliceLast_length_le (n : ℕ) (l : List α) : (sliceLast n l).length ≤ n := by
  simp only [sliceLast, List.length_drop]
  omega

lemma stacksBounded_pushHistory (s : DrawState) (a : DrawingAction) :
    stacksBounded (pushHistory s a) :=
  ⟨sliceLast_length_le HISTORY_LIMIT (s.history ++ [a]), by simp [pushHistory]⟩

lemma pointerDown_stacks (appMode : String) (videoUrl : Option String) (button : ℕ)
    (tgt : Bool) (rect : BoundingRect) (vb : Option Rect) (cx cy : ℚ)
    (newId : String) (now : ℤ) (s : DrawState) :
    (handlePointerDown appMode videoUrl button tgt rect vb cx cy newId now s).history =
      s.history ∧
    (handlePointerDown appMode videoUrl button tgt rect vb cx cy newId now s).redoStack =
      s.redoStack := by
  by_cases ha : appMode = "draw"
  case neg =>
    rw [pointerDown_other_mode _ _ _ _ _ _ _ _ _ _ _ ha]; exact ⟨rfl, rfl⟩
  subst ha
  by_cases hg : videoUrl = none ∨ button = 2
  case pos =>
    rw [pointerDown_gated _ _ _ _ _ _ _ _ _ _ hg]; exact ⟨rfl, rfl⟩
  cases tgt with
  | true =>
    rw [pointerDown_on_control _ _ _ _ _ _ _ _ _ hg]; exact ⟨rfl, rfl⟩
  | false =>
    cases hpt : toNormalizedPoint rect vb cx cy with
    | none =>
      cases hsel : s.selectedId with
      | none =>
        rw [pointerDown_noPoint_noSel _ _ _ _ _ _ _ _ _ hg hpt hsel]; exact ⟨rfl, rfl⟩
      | some sid =>
        rw [pointerDown_noPoint_sel _ _ _ _ _ _ _ _ _ _ hg hpt hsel]; exact ⟨rfl, rfl⟩
    | some p =>
      cases hhit : findHit vb s.lines p with
      | mk oline otgt' =>
        cases oline with
        | some line =>
          rw [pointerDown_hit _ _ _ _ _ _ _ _ _ _ _ _ hg hpt hhit]; exact ⟨rfl, rfl⟩
        | none =>
          cases hsel : s.selectedId with
          | none =>
            rw [pointerDown_miss_noSel _ _ _ _ _ _ _ _ _ _ _ hg hpt hhit hsel]
            exact ⟨rfl, rfl⟩
          | some sid =>
            rw [pointerDown_miss_sel _ _ _ _ _ _ _ _ _ _ _ _ hg hpt hhit hsel]
            exact ⟨rfl, rfl⟩

lemma pointerMove_stacks (appMode : String) (rect : BoundingRect) (vb : Option Rect)
    (cx cy : ℚ) (s : DrawState) :
    (handlePointerMove appMode rect vb cx cy s).history = s.history ∧
    (handlePointerMove appMode rect vb cx cy s).redoStack = s.redoStack := by
  by_cases ha : appMode = "draw"
  case neg =>
    rw [pointerMove_other_mode _ _ _ _ _ _ ha]; exact ⟨rfl, rfl⟩
  subst ha
  cases hd : s.draftLine with
  | some draft =>
    cases hpt : toNormalizedPoint rect vb cx cy with
    | none => rw [pointerMove_draft_noPoint _ _ _ _ _ _ hd hpt]; exact ⟨rfl, rfl⟩
    | some p => rw [pointerMove_draft_point _ _ _ _ _ _ _ hd hpt]; exact ⟨rfl, rfl⟩
  | none =>
    cases hpt : toNormalizedPoint rect vb cx cy with
    | none => rw [pointerMove_noDraft_noPoint _ _ _ _ _ hd hpt]; exact ⟨rfl, rfl⟩
    | some p =>
      cases hses : s.editSession with
      | none => rw [pointerMove_noSession _ _ _ _ _ _ hd hpt hses]; exact ⟨rfl, rfl⟩
      | some session =>
        obtain ⟨_, _, hh, hr, _⟩ :=
          pointerMove_session_fields rect vb cx cy s p session hd hpt hses
        exact ⟨hh, hr⟩

lemma stacksBounded_pointerUp (appMode : String) (s : DrawState)
    (hs : stacksBounded s) : stacksBounded (handlePointerUp appMode s) := by
  by_cases ha : appMode = "draw"
  · subst ha
    cases hd : s.draftLine with
    | some draft =>
      rw [pointerUp_draft_eq s draft hd]
      exact ⟨sliceLast_length_le _ _, by simp⟩
    | none =>
      obtain ⟨_, _, _, _, hor⟩ := pointerUp_noDraft_fields s hd
      rcases hor with ⟨hh, hr⟩ | ⟨a, hh, hr⟩
      · exact ⟨hh ▸ hs.1, hr ▸ hs.2⟩
      · exact ⟨hh ▸ sliceLast_length_le _ _, hr ▸ Nat.zero_le _⟩
  · rw [pointerUp_other_mode appMode s ha]
    exact hs

lemma stacksBounded_undo (s : DrawState) (hs : stacksBounded s) :
    stacksBounded (handleUndo s) := by
  unfold handleUndo
  cases s.history.getLast? with
  | none => exact hs
  | some last =>
    refine ⟨?_, sliceLast_length_le _ _⟩
    calc s.history.dropLast.length ≤ s.history.length := by
          rw [List.length_dropLast]; omega
      _ ≤ HISTORY_LIMIT := hs.1

lemma stacksBounded_redo (s : DrawState) (hs : stacksBounded s) :
    stacksBounded (handleRedo s) := by
  unfold handleRedo
  cases s.redoStack.getLast? with
  | none => exact hs
  | some last => exact ⟨sliceLast_length_le _ _, hs.2⟩

lemma stacksBounded_deleteSelected (s : DrawState) (hs : stacksBounded s) :
    stacksBounded (deleteSelected s) := by
  cases hsel : s.selectedId with
  | none => rw [deleteSelected_noSel s hsel]; exact hs
  | some sid =>
    cases hf : s.lines.find? (fun l => l.id == sid) with
    | none => rw [deleteSelected_missing s sid hsel hf]; exact hs
    | some line =>
      rw [deleteSelected_found s sid line hsel hf]
      exact ⟨sliceLast_length_le _ _, by simp⟩

/-- C4: every operation keeps both stacks within the 50-entry cap
(`HISTORY_LIMIT = 50`, and the initial state is within the cap, so the
bound holds along every operation sequence); pushing onto a full stack
drops the oldest entry and keeps the most recent 50 in order; and every
commit (`pushHistory`) empties the redo stack. -/
theorem stacks_never_exceed_cap (appMode : String) (videoUrl : Option String)
    (button : ℕ) (tgt : Bool) (rect : BoundingRect) (vb : Option Rect) (cx cy : ℚ)
    (newId : String) (now : ℤ) (nextLines : List LineShape) (key : String)
    (activeTag : Option String) (s : DrawState) (hs : stacksBounded s) :
    HISTORY_LIMIT = 50 ∧
    stacksBounded initialState ∧
    stacksBounded (handlePointerDown appMode videoUrl button tgt rect vb cx cy newId now s) ∧
    stacksBounded (handlePointerMove appMode rect vb cx cy s) ∧
    stacksBounded (handlePointerUp appMode s) ∧
    stacksBounded (handleUndo s) ∧
    stacksBounded (handleRedo s) ∧
    stacksBounded (deleteSelected s) ∧
    stacksBounded (resetDrawing nextLines s) ∧
    stacksBounded (clearInteraction s) ∧
    stacksBounded (handleKeyDown key activeTag s) ∧
    (∀ (stack : List DrawingAction) (a : DrawingAction), stack.length = HISTORY_LIMIT →
      sliceLast HISTORY_LIMIT (stack ++ [a]) = stack.tail ++ [a]) ∧
    (∀ a, (pushHistory s a).redoStack = []) := by
  obtain ⟨hdh, hdr⟩ :=
    pointerDown_stacks appMode videoUrl button tgt rect vb cx cy newId now s
  obtain ⟨hmh, hmr⟩ := pointerMove_stacks appMode rect vb cx cy s
  refine ⟨rfl, by simp [stacksBounded, initialState],
    ⟨hdh ▸ hs.1, hdr ▸ hs.2⟩,
    ⟨hmh ▸ hs.1, hmr ▸ hs.2⟩,
    stacksBounded_pointerUp appMode s hs,
    stacksBounded_undo s hs,
    stacksBounded_redo s hs,
    stacksBounded_deleteSelected s hs,
    by simp [stacksBounded, resetDrawing],
    hs,
    ?_, ?_, fun a => by simp [pushHistory]⟩
  · rcases keyDown_cases key activeTag s with h | h
    · rw [h]; exact hs
    · rw [h]; exact stacksBounded_deleteSelected s hs
  · intro stack a hlen
    have h1 : (stack ++ [a]).length - HISTORY_LIMIT = 1 := by
      simp [hlen]
    simp only [sliceLast, h1]
    rw [List.drop_append_of_le_length (by rw [hlen]; norm_num [HISTORY_LIMIT]),
      List.drop_one]

/-- Witness for C4 at the initial state. -/
theorem stacks_never_exceed_cap_witness :
    stacksBounded (handleUndo initialState) ∧
    (∀ a, (pushHistory initialState a).redoStack = []) :=
  ⟨(stacks_never_exceed_cap "draw" (some "v") 0 false ⟨0, 0⟩ none 0 0 "n1" 7 [] "Delete"
      none initialState (by constructor <;> simp [initialState])).2.2.2.2.2.1,
   (stacks_never_exceed_cap "draw" (some "v") 0 false ⟨0, 0⟩ none 0 0 "n1" 7 [] "Delete"
      none initialState (by constructor <;> simp [initialState])).2.2.2.2.2.2.2.2.2.2.2.2⟩

/-!  ## C8: PointerUp pushes an update exactly when a coordinate moved  -/

/-- C8: for a drag session ended by PointerUp (draw mode, no draft in
progress, live line found by the session id): the session is cleared
unconditionally, lines/draft/selection are untouched, and an
`update(before, after)` history action is pushed if and only if at least
one of the four endpoint coordinates of the live line differs from the
session's `before` snapshot (zero net displacement pushes nothing). -/
theorem pointerUp_update_iff (s : DrawState) (session : EditSession) (updated : LineShape)
    (hd : s.draftLine = none) (hses : s.editSession = some session)
    (hf : s.lines.find? (fun l => l.id == session.id) = some updated) :
    (handlePointerUp "draw" s).editSession = none ∧
    (handlePointerUp "draw" s).lines = s.lines ∧
    (handlePointerUp "draw" s).draftLine = none ∧
    (handlePointerUp "draw" s).selectedId = s.selectedId ∧
    ((updated.p1.x ≠ session.before.p1.x ∨ updated.p1.y ≠ session.before.p1.y ∨
      updated.p2.x ≠ session.before.p2.x ∨ updated.p2.y ≠ session.before.p2.y) →
      (handlePointerUp "draw" s).history =
        sliceLast HISTORY_LIMIT
          (s.history ++ [DrawingAction.update session.before updated]) ∧
      (handlePointerUp "draw" s).redoStack = []) ∧
    (updated.p1.x = session.before.p1.x → updated.p1.y = session.before.p1.y →
      updated.p2.x = session.before.p2.x → updated.p2.y = session.before.p2.y →
      (handlePointerUp "draw" s).history = s.history ∧
      (handlePointerUp "draw" s).redoStack = s.redoStack) := by
  by_cases hdiff : updated.p1.x ≠ session.before.p1.x ∨
      updated.p1.y ≠ session.before.p1.y ∨
      updated.p2.x ≠ session.before.p2.x ∨ updated.p2.y ≠ session.before.p2.y
  · rw [pointerUp_session_push s session updated hd hses hf hdiff]
    refine ⟨rfl, rfl, hd, rfl, fun _ => ⟨rfl, rfl⟩, ?_⟩
    intro h1 h2 h3 h4
    exact absurd hdiff (by simp [h1, h2, h3, h4])
  · rw [pointerUp_session_noPush s session updated hd hses hf hdiff]
    exact ⟨rfl, rfl, hd, rfl, fun h => absurd h hdiff, fun _ _ _ _ => ⟨rfl, rfl⟩⟩

/-- Sample data for the C8 witness: a `p1` drag that moved the endpoint
from `(0,0)` to `(1,0)`. -/
def lineW : LineShape :=
  { id := "w", type := "line", p1 := ⟨1, 0⟩, p2 := ⟨1, 1⟩, createdAt := 0 }

def beforeW : LineShape :=
  { id := "w", type := "line", p1 := ⟨0, 0⟩, p2 := ⟨1, 1⟩, createdAt := 0 }

def sessionW : EditSession :=
  { id := "w", before := beforeW, lastPointer := ⟨1, 0⟩, type := DragType.p1 }

def stateW : DrawState :=
  { lines := [lineW], draftLine := none, selectedId := some "w",
    history := [], redoStack := [], editSession := some sessionW }

/-- Witness for C8: the drag session is cleared and the matching update
is pushed. -/
theorem pointerUp_update_iff_witness :
    (handlePointerUp "draw" stateW).editSession = none ∧
    (handlePointerUp "draw" stateW).history =
      sliceLast HISTORY_LIMIT ([] ++ [DrawingAction.update beforeW lineW]) :=
  ⟨(pointerUp_update_iff stateW sessionW lineW rfl rfl rfl).1,
   ((pointerUp_update_iff stateW sessionW lineW rfl rfl rfl).2.2.2.2.1 (by decide)).1⟩

/-!  ## C10: a tap with no motion commits a degenerate line  -/

/-- C10: in draw mode with no current selection and no draft, a
PointerDown that resolves to a point hitting nothing starts a draft with
`p1 = p2 = point`, and an immediate PointerUp (no PointerMove in
between) commits that degenerate zero-length line unconditionally,
pushes an `add` history action, and selects the new line. -/
theorem tap_commits_degenerate_line (s : DrawState) (url : String) (rect : BoundingRect)
    (b : Rect) (cx cy : ℚ) (newId : String) (now : ℤ) (p : Point)
    (hsel : s.selectedId = none) (_hdraft : s.draftLine = none)
    (hpt : toNormalizedPoint rect (some b) cx cy = some p)
    (hmiss : findHit (some b) s.lines p = (none, none)) :
    (handlePointerDown "draw" (some url) 0 false rect (some b) cx cy newId now s).draftLine
      = some { id := newId, type := "line", p1 := p, p2 := p, createdAt := now } ∧
    handlePointerUp "draw"
        (handlePointerDown "draw" (some url) 0 false rect (some b) cx cy newId now s) =
      { s with
          lines := s.lines ++
            [{ id := newId, type := "line", p1 := p, p2 := p, createdAt := now }],
          history := sliceLast HISTORY_LIMIT (s.history ++
            [DrawingAction.add
              { id := newId, type := "line", p1 := p, p2 := p, createdAt := now }]),
          redoStack := [],
          draftLine := none,
          selectedId := some newId } := by
  have h1 := pointerDown_miss_noSel (some url) 0 rect (some b) cx cy newId now s p none
    (by simp) hpt hmiss hsel
  rw [h1]
  exact ⟨rfl, by rw [pointerUp_draft_eq _ _ rfl]⟩

/-- Witness for C10: a tap at client (20,20) over a 100×100 video
commits the degenerate line with both endpoints at (1/5, 1/5). -/
theorem tap_commits_degenerate_line_witness :
    (handlePointerDown "draw" (some "v") 0 false ⟨0, 0⟩ (some ⟨0, 0, 100, 100⟩)
        20 20 "n1" 7 initialState).draftLine
      = some { id := "n1", type := "line", p1 := ⟨1/5, 1/5⟩, p2 := ⟨1/5, 1/5⟩,
               createdAt := 7 } ∧
    handlePointerUp "draw"
        (handlePointerDown "draw" (some "v") 0 false ⟨0, 0⟩ (some ⟨0, 0, 100, 100⟩)
          20 20 "n1" 7 initialState) =
      { initialState with
          lines := initialState.lines ++
            [{ id := "n1", type := "line", p1 := ⟨1/5, 1/5⟩, p2 := ⟨1/5, 1/5⟩,
               createdAt := 7 }],
          history := sliceLast HISTORY_LIMIT (initialState.history ++
            [DrawingAction.add
              { id := "n1", type := "line", p1 := ⟨1/5, 1/5⟩, p2 := ⟨1/5, 1/5⟩,
                createdAt := 7 }]),
          redoStack := [],
          draftLine := none,
          selectedId := some "n1" } :=
  tap_commits_degenerate_line initialState "v" ⟨0, 0⟩ ⟨0, 0, 100, 100⟩ 20 20 "n1" 7
    ⟨1/5, 1/5⟩ rfl rfl
    (by simp [toNormalizedPoint, clampPoint]; norm_num) rfl

/-!  ## C3: Undo then Redo restores the line list

States reachable by committing Add/Update/Delete history actions through
the state machine's own code paths: an Add commits a draft through
`handlePointerUp` (with a fresh id, as `crypto.randomUUID()` provides); a
Delete removes the selected line through `deleteSelected`; an Update is a
drag (`handlePointerMove` replaces the line whose id matches the session
by a moved copy — every branch preserves `id`, `type`, `createdAt`)
committed through `handlePointerUp`, with the session seeded from the
dragged line as `handlePointerDown` builds it (`before` is a snapshot of
the line, `session.id = line.id`). -/

inductive Reach : DrawState → Prop where
  | init : Reach initialState
  | add (s : DrawState) (draft : LineShape) (h : Reach s)
      (hfresh : ∀ l ∈ s.lines, l.id ≠ draft.id) :
      Reach (handlePointerUp "draw" { s with draftLine := some draft })
  | del (s : DrawState) (sid : String) (h : Reach s) :
      Reach (deleteSelected { s with selectedId := some sid })
  | upd (s : DrawState) (origLine : LineShape) (lastP q1 q2 : Point) (t : DragType)
      (h : Reach s) (hmem : origLine ∈ s.lines) :
      Reach (handlePointerUp "draw"
        { s with
            lines := s.lines.map (fun l =>
              if l.id = origLine.id then { l with p1 := q1, p2 := q2 } else l),
            draftLine := none,
            editSession := some { id := origLine.id, before := origLine,
                                  lastPointer := lastP, type := t } })

/-- All line ids are distinct. -/
def uniqueIds (lines : List LineShape) : Prop :=
  (lines.map (fun l => l.id)).Nodup

/-- What holds of the line list right after the given action was
committed as the newest history entry. -/
def actionConsistent (a : DrawingAction) (lines : List LineShape) : Prop :=
  match a with
  | DrawingAction.add line => ∃ L, lines = L ++ [line] ∧ ∀ l ∈ L, l.id ≠ line.id
  | DrawingAction.delete line => ∀ l ∈ lines, l.id ≠ line.id
  | DrawingAction.update before after =>
      before.id = after.id ∧ ∀ l ∈ lines, l.id = after.id → l = after

/-- The induction invariant for commit-reachable states. -/
def ReachInv (s : DrawState) : Prop :=
  uniqueIds s.lines ∧ s.redoStack = [] ∧
  ∀ a, s.history.getLast? = some a → actionConsistent a s.lines

lemma map_pointwise_id (f : α → α) (l : List α) (h : ∀ x ∈ l, f x = x) :
    l.map f = l := by
  rw [List.map_congr_left h]
  simp

lemma getLast?_sliceLast_concat (n : ℕ) (hn : 1 ≤ n) (l : List α) (a : α) :
    (sliceLast n (l ++ [a])).getLast? = some a := by
  simp only [sliceLast]
  rcases le_or_lt (l ++ [a]).length n with h | h
  · rw [Nat.sub_eq_zero_of_le h, List.drop_zero]
    exact List.getLast?_concat _
  · have hk : (l ++ [a]).length - n ≤ l.length := by
      simp only [List.length_append, List.length_singleton]
      omega
    rw [List.drop_append_of_le_length hk]
    exact List.getLast?_concat _

lemma applyForward_applyInverse (a : DrawingAction) (L : List LineShape)
    (hc : actionConsistent a L) :
    applyForward (applyInverse L a) a = L := by
  cases a with
  | add line =>
    obtain ⟨M, hM, hfresh⟩ := hc
    subst hM
    simp only [applyInverse, applyForward, List.filter_append]
    have h1 : M.filter (fun l => l.id != line.id) = M :=
      List.filter_eq_self.mpr (fun l hl => by simp [hfresh l hl])
    have h2 : [line].filter (fun l => l.id != line.id) = [] := by simp
    rw [h1, h2, List.append_nil]
  | delete line =>
    simp only [applyInverse, applyForward, List.filter_append]
    have h1 : L.filter (fun l => l.id != line.id) = L :=
      List.filter_eq_self.mpr (fun l hl => by simp [hc l hl])
    have h2 : [line].filter (fun l => l.id != line.id) = [] := by simp
    rw [h1, h2, List.append_nil]
  | update bef aft =>
    obtain ⟨hid, hall⟩ := hc
    simp only [applyInverse, applyForward, List.map_map]
    apply map_pointwise_id
    intro x hx
    simp only [Function.comp]
    by_cases hxid : x.id = aft.id
    · rw [if_pos hxid, if_pos rfl]
      exact (hall x hx hxid).symm
    · rw [if_neg hxid, if_neg (fun hxb => hxid (hxb.trans hid))]

lemma reach_inv (s : DrawState) (h : Reach s) : ReachInv s := by
  induction h with
  | init =>
    refine ⟨by simp [initialState, uniqueIds], rfl, fun a ha => ?_⟩
    simp [initialState] at ha
  | add s draft h hfresh ih =>
    obtain ⟨hu, hr, hc⟩ := ih
    rw [pointerUp_draft_eq _ draft rfl]
    refine ⟨?_, rfl, ?_⟩
    · show uniqueIds (s.lines ++ [draft])
      simp only [uniqueIds, List.map_append, List.map_cons, List.map_nil,
        List.nodup_append, List.nodup_cons, List.nodup_nil, List.not_mem_nil,
        not_false_eq_true, and_true, true_and]
      refine ⟨hu, ?_⟩
      intro x hx hx2
      rw [List.mem_singleton] at hx2
      obtain ⟨l, hl, hlid⟩ := List.mem_map.mp hx
      exact hfresh l hl (by rw [hlid, hx2])
    · intro a ha
      have ha' : (sliceLast HISTORY_LIMIT
          (s.history ++ [DrawingAction.add draft])).getLast? = some a := ha
      rw [getLast?_sliceLast_concat HISTORY_LIMIT (by norm_num [HISTORY_LIMIT])] at ha'
      cases ha'
      exact ⟨s.lines, rfl, hfresh⟩
  | del s sid h ih =>
    obtain ⟨hu, hr, hc⟩ := ih
    cases hf : ({ s with selectedId := some sid } : DrawState).lines.find?
        (fun l => l.id == sid) with
    | none =>
      rw [deleteSelected_missing _ sid rfl hf]
      exact ⟨hu, hr, hc⟩
    | some line =>
      rw [deleteSelected_found _ sid line rfl hf]
      have hlid : line.id = sid := by
        have := List.find?_some hf
        simpa using this
      refine ⟨?_, rfl, ?_⟩
      · show uniqueIds (s.lines.filter (fun l => l.id != sid))
        exact hu.sublist ((List.filter_sublist _).map _)
      · intro a ha
        have ha' : (sliceLast HISTORY_LIMIT
            (s.history ++ [DrawingAction.delete line])).getLast? = some a := ha
        rw [getLast?_sliceLast_concat HISTORY_LIMIT (by norm_num [HISTORY_LIMIT])] at ha'
        cases ha'
        intro l hl
        have hl' : l ∈ s.lines ∧ (l.id != sid) = true := List.mem_filter.mp hl
        rw [hlid]
        simpa using hl'.2
  | upd s origLine lastP q1 q2 t h hmem ih =>
    obtain ⟨hu, hr, hc⟩ := ih
    have hgid : ∀ l : LineShape,
        ((fun l => if l.id = origLine.id then { l with p1 := q1, p2 := q2 } else l) l).id
          = l.id := by
      intro l
      show (if l.id = origLine.id
        then ({ l with p1 := q1, p2 := q2 } : LineShape) else l).id = l.id
      by_cases hl : l.id = origLine.id
      · simp [hl]
      · simp [hl]
    have hids : ((s.lines.map (fun l =>
        if l.id = origLine.id then { l with p1 := q1, p2 := q2 } else l)).map
          (fun l => l.id)) = s.lines.map (fun l => l.id) := by
      rw [List.map_map]
      exact List.map_congr_left (fun l _ => hgid l)
    have humap : uniqueIds (s.lines.map (fun l =>
        if l.id = origLine.id then { l with p1 := q1, p2 := q2 } else l)) := by
      unfold uniqueIds
      rw [hids]
      exact hu
    have hinj : ∀ l ∈ s.lines, l.id = origLine.id → l = origLine :=
      fun l hl hlid => List.inj_on_of_nodup_map hu hl hmem hlid
    have hmemg : ({ origLine with p1 := q1, p2 := q2 } : LineShape) ∈
        s.lines.map (fun l =>
          if l.id = origLine.id then { l with p1 := q1, p2 := q2 } else l) := by
      have := List.mem_map_of_mem (fun l =>
        if l.id = origLine.id then { l with p1 := q1, p2 := q2 } else l) hmem
      simpa using this
    have hall : ∀ x ∈ s.lines.map (fun l =>
        if l.id = origLine.id then { l with p1 := q1, p2 := q2 } else l),
        x.id = origLine.id → x = { origLine with p1 := q1, p2 := q2 } := by
      intro x hx hxid
      obtain ⟨l, hl, rfl⟩ := List.mem_map.mp hx
      have hlid : l.id = origLine.id := (hgid l).symm.trans hxid
      rw [hinj l hl hlid]
      simp
    cases hf : ({ s with
        lines := s.lines.map (fun l =>
          if l.id = origLine.id then { l with p1 := q1, p2 := q2 } else l),
        draftLine := none,
        editSession := some { id := origLine.id, before := origLine,
                              lastPointer := lastP, type := t } } : DrawState).lines.find?
          (fun l => l.id == origLine.id) with
    | none =>
      exfalso
      have := List.find?_eq_none.mp hf _ hmemg
      simp at this
    | some updated =>
      have hupdmem : updated ∈ s.lines.map (fun l =>
          if l.id = origLine.id then { l with p1 := q1, p2 := q2 } else l) :=
        List.mem_of_find?_eq_some hf
      have hupdid : updated.id = origLine.id := by
        have := List.find?_some hf
        simpa using this
      have hupd : updated = { origLine with p1 := q1, p2 := q2 } :=
        hall updated hupdmem hupdid
      by_cases hdiff : updated.p1.x ≠ origLine.p1.x ∨ updated.p1.y ≠ origLine.p1.y ∨
          updated.p2.x ≠ origLine.p2.x ∨ updated.p2.y ≠ origLine.p2.y
      · rw [pointerUp_session_push _ _ updated rfl rfl hf hdiff]
        refine ⟨humap, rfl, ?_⟩
        intro a ha
        have ha' : (sliceLast HISTORY_LIMIT (s.history ++
            [DrawingAction.update origLine updated])).getLast? = some a := ha
        rw [getLast?_sliceLast_concat HISTORY_LIMIT (by norm_num [HISTORY_LIMIT])] at ha'
        cases ha'
        refine ⟨hupdid.symm, ?_⟩
        intro l hl hlid
        rw [hall l hl (hlid.trans hupdid), hupd]
      · rw [pointerUp_session_noPush _ _ updated rfl rfl hf hdiff]
        push_neg at hdiff
        obtain ⟨h1, h2, h3, h4⟩ := hdiff
        rw [hupd] at h1 h2 h3 h4
        have hq1 : q1 = origLine.p1 := by
          obtain ⟨qx, qy⟩ := q1
          rw [show ({ x := qx, y := qy } : Point).x = qx from rfl] at h1
          rw [show ({ x := qx, y := qy } : Point).y = qy from rfl] at h2
          rw [h1, h2]
        have hq2 : q2 = origLine.p2 := by
          obtain ⟨qx, qy⟩ := q2
          rw [show ({ x := qx, y := qy } : Point).x = qx from rfl] at h3
          rw [show ({ x := qx, y := qy } : Point).y = qy from rfl] at h4
          rw [h3, h4]
        have hmapid : s.lines.map (fun l =>
            if l.id = origLine.id then { l with p1 := q1, p2 := q2 } else l) = s.lines := by
          apply map_pointwise_id
          intro l hl
          by_cases hlid : l.id = origLine.id
          · rw [if_pos hlid, hinj l hl hlid, hq1, hq2]
          · rw [if_neg hlid]
        refine ⟨?_, hr, ?_⟩
        · show uniqueIds (s.lines.map (fun l =>
            if l.id = origLine.id then { l with p1 := q1, p2 := q2 } else l))
          exact humap
        · intro a ha
          have ha' : s.history.getLast? = some a := ha
          have := hc a ha'
          show actionConsistent a (s.lines.map (fun l =>
            if l.id = origLine.id then { l with p1 := q1, p2 := q2 } else l))
          rw [hmapid]
          exact this

lemma undo_redo_core (s : DrawState) (hinv : ReachInv s) (hne : s.history ≠ []) :
    (handleRedo (handleUndo s)).lines = s.lines := by
  obtain ⟨hu, hr, hc⟩ := hinv
  obtain ⟨a, ha⟩ : ∃ a, s.history.getLast? = some a := by
    cases hh : s.history.getLast? with
    | none => exact absurd (List.getLast?_eq_none_iff.mp hh) hne
    | some a => exact ⟨a, rfl⟩
  have hundo : handleUndo s =
      { s with lines := applyInverse s.lines a,
               redoStack := sliceLast HISTORY_LIMIT (s.redoStack ++ [a]),
               history := s.history.dropLast } := by
    unfold handleUndo
    rw [ha]
  have hstack : (handleUndo s).redoStack = [a] := by
    rw [hundo, hr]
    rfl
  have hredo : handleRedo (handleUndo s) =
      { handleUndo s with
          lines := applyForward (handleUndo s).lines a,
          history := sliceLast HISTORY_LIMIT ((handleUndo s).history ++ [a]),
          redoStack := (handleUndo s).redoStack } := by
    unfold handleRedo
    rw [hstack]
    rfl
  rw [hredo]
  show applyForward (handleUndo s).lines a = s.lines
  rw [hundo]
  show applyForward (applyInverse s.lines a) a = s.lines
  exact applyForward_applyInverse a s.lines (hc a ha)

/-- C3: in every state reachable by committing a sequence of
Add/Update/Delete history actions (through the machine's own code
paths) whose history stack is non-empty, performing Undo and then
immediately Redo yields a line list structurally equal to the one that
existed before the Undo. -/
theorem undo_redo_roundtrip (s : DrawState) (h : Reach s) (hne : s.history ≠ []) :
    (handleRedo (handleUndo s)).lines = s.lines :=
  undo_redo_core s (reach_inv s h) hne

/-- Sample line for the C3 witness. -/
def lineR : LineShape :=
  { id := "r", type := "line", p1 := ⟨0, 0⟩, p2 := ⟨1, 1⟩, createdAt := 0 }

/-- Witness for C3: after committing one Add, Undo then Redo restores
the one-line list. -/
theorem undo_redo_roundtrip_witness :
    (handleRedo (handleUndo (handlePointerUp "draw"
        { initialState with draftLine := some lineR }))).lines =
      (handlePointerUp "draw" { initialState with draftLine := some lineR }).lines :=
  undo_redo_roundtrip _
    (Reach.add initialState lineR Reach.init (by simp [initialState]))
    (by decide)

end MovieViewer
